import Mathlib

/-!
Shallow embedding of the `dafi` query-criteria package
(`pkg/dafi/filter.go`, `pkg/dafi/pagination.go`, `pkg/dafi/sort.go`,
`pkg/dafi/criteria.go`).

Two models are given:

* a functional model of `Filters` as a Lean `List Filter`, whose builder
  operations compute the value that the corresponding Go method returns
  when a chain is built linearly (each intermediate value used once);

* a heap model (`GoHeap`/`GoSlice`) that reproduces Go slice semantics —
  a shared backing array, in-place writes, and `append`'s
  copy-on-capacity-overflow — needed for the aliasing-safety property,
  which is about what happens when two continuations are built from the
  same intermediate `Filters` value.

Go named string types (`FilterField`, `FilterOperator`,
`FilterChainingKey`) are `String` abbreviations; `uint` is `Nat`;
`int` is `Int`.  Go's `any`-typed filter value is modelled by a small
closed sum `FilterValue`; it is opaque to every operation embedded
here, so the choice of constructors is irrelevant to the theorems.
-/

namespace dafi

/-- `FilterField` represents the name of the field to filter by (Go: `type FilterField string`). -/
abbrev FilterField := String

/-- `FilterOperator` represents the comparison operator for a filter (Go: `type FilterOperator string`). -/
abbrev FilterOperator := String

/-- `FilterChainingKey` represents the logical operator to chain filters (Go: `type FilterChainingKey string`). -/
abbrev FilterChainingKey := String

/-- `FilterValue` models Go's `any`-typed filter operand; opaque to this layer. -/
inductive FilterValue where
  | null
  | int (n : Int)
  | str (s : String)
  | boolean (b : Bool)
deriving DecidableEq, Repr, Inhabited

/-- Go constant `Equal FilterOperator = "eq"`. -/
def Equal : FilterOperator := "eq"

/-- Go constant `NotEqual FilterOperator = "ne"`. -/
def NotEqual : FilterOperator := "ne"

/-- Go constant `Greater FilterOperator = "gt"`. -/
def Greater : FilterOperator := "gt"

/-- Go constant `GreaterOrEqual FilterOperator = "gte"`. -/
def GreaterOrEqual : FilterOperator := "gte"

/-- Go constant `Less FilterOperator = "lt"`. -/
def Less : FilterOperator := "lt"

/-- Go constant `LessOrEqual FilterOperator = "lte"`. -/
def LessOrEqual : FilterOperator := "lte"

/-- Go constant `Like FilterOperator = "like"`. -/
def Like : FilterOperator := "like"

/-- Go constant `In FilterOperator = "in"`. -/
def In : FilterOperator := "in"

/-- Go constant `NotIn FilterOperator = "nin"`. -/
def NotIn : FilterOperator := "nin"

/-- Go constant `Contains FilterOperator = "contains"`. -/
def Contains : FilterOperator := "contains"

/-- Go constant `NotContains FilterOperator = "ncontains"`. -/
def NotContains : FilterOperator := "ncontains"

/-- Go constant `Is FilterOperator = "is"`. -/
def Is : FilterOperator := "is"

/-- Go constant `IsNull FilterOperator = "isnull"`. -/
def IsNull : FilterOperator := "isnull"

/-- Go constant `IsNot FilterOperator = "isn"`. -/
def IsNot : FilterOperator := "isn"

/-- Go constant `IsNotNull FilterOperator = "isnnull"`. -/
def IsNotNull : FilterOperator := "isnnull"

/-- Go constant `Default FilterOperator = "default"`. -/
def Default : FilterOperator := "default"

/-- Go constant `And FilterChainingKey = "AND"`. -/
def And : FilterChainingKey := "AND"

/-- Go constant `Or FilterChainingKey = "OR"`. -/
def Or : FilterChainingKey := "OR"

/-- `Filter` represents a single filter criteria (Go struct `Filter`);
the field defaults are the Go zero values. -/
structure Filter where
  Module : String := ""
  IsGroupOpen : Bool := false
  GroupOpenQty : Int := 0
  Field : FilterField := ""
  Operator : FilterOperator := ""
  Value : FilterValue := .null
  IsGroupClose : Bool := false
  GroupCloseQty : Int := 0
  ChainingKey : FilterChainingKey := ""
  OverridePreviousFilterChainingKey : FilterChainingKey := ""
deriving DecidableEq, Repr

instance : Inhabited Filter := ⟨{}⟩

/-- `Filters` represents a collection of filters (Go: `type Filters []Filter`). -/
abbrev Filters := List Filter

/-- `IsZero` returns true if the filters collection is empty (Go: `len(f) == 0`). -/
def Filters.IsZero (f : Filters) : Bool := f.length == 0

/-- `FilterBy` creates a new `Filters` collection with a single filter. -/
def FilterBy (name : String) (operator : FilterOperator) (value : FilterValue) : Filters :=
  [{ Field := name, Operator := operator, Value := value }]

/-- The in-place Go statement `f[len(f)-1].ChainingKey = k` as a pure
function: the last element's `ChainingKey` field is replaced, every
other element and every other field is untouched. -/
def setLastChainingKey (f : Filters) (k : FilterChainingKey) : Filters :=
  match f with
  | [] => []
  | [x] => [{ x with ChainingKey := k }]
  | x :: y :: ys => x :: setLastChainingKey (y :: ys) k

/-- `Or` adds a new filter combined with OR logic (Go `Filters.Or`). -/
def Filters.Or (f : Filters) (field : String) (operator : FilterOperator)
    (value : FilterValue) : Filters :=
  if f.IsZero then [{ Field := field, Operator := operator, Value := value }]
  else
    setLastChainingKey f dafi.Or ++ [{ Field := field, Operator := operator, Value := value }]

/-- `And` adds a new filter combined with AND logic (Go `Filters.And`). -/
def Filters.And (f : Filters) (field : String) (operator : FilterOperator)
    (value : FilterValue) : Filters :=
  if f.IsZero then [{ Field := field, Operator := operator, Value := value }]
  else
    setLastChainingKey f dafi.And ++ [{ Field := field, Operator := operator, Value := value }]

/-- The Go statement `filters[0].IsGroupOpen = true` as a pure function. -/
def setFirstGroupOpen : List Filter → List Filter
  | [] => []
  | x :: xs => { x with IsGroupOpen := true } :: xs

/-- The Go statement `filters[len(filters)-1].IsGroupClose = true` as a pure function. -/
def setLastGroupClose : List Filter → List Filter
  | [] => []
  | [x] => [{ x with IsGroupClose := true }]
  | x :: y :: ys => x :: setLastGroupClose (y :: ys)

/-- The two marker assignments of `AndGroup`/`OrGroup`, in source order:
first `filters[0].IsGroupOpen = true`, then
`filters[len(filters)-1].IsGroupClose = true`. -/
def markGroupBounds (filters : List Filter) : List Filter :=
  setLastGroupClose (setFirstGroupOpen filters)

/-- `AndGroup` adds a group of filters combined with AND logic (Go `Filters.AndGroup`). -/
def Filters.AndGroup (f : Filters) (filters : List Filter) : Filters :=
  if filters.length == 0 then f
  else
    (if f.length > 0 then setLastChainingKey f dafi.And else f) ++ markGroupBounds filters

/-- `OrGroup` adds a group of filters combined with OR logic (Go `Filters.OrGroup`). -/
def Filters.OrGroup (f : Filters) (filters : List Filter) : Filters :=
  if filters.length == 0 then f
  else
    (if f.length > 0 then setLastChainingKey f dafi.Or else f) ++ markGroupBounds filters

/-- `Pagination` defines the pagination parameters (Go struct, `uint` fields). -/
structure Pagination where
  PageNumber : Nat := 0
  PageSize : Nat := 0
deriving DecidableEq, Repr

/-- `IsZero` checks if the pagination is empty. -/
def Pagination.IsZero (p : Pagination) : Bool :=
  p.PageNumber == 0 && p.PageSize == 0

/-- `HasPageNumber` checks if the page number is set. -/
def Pagination.HasPageNumber (p : Pagination) : Bool :=
  p.PageNumber > 0

/-- `HasPageSize` checks if the page size is set. -/
def Pagination.HasPageSize (p : Pagination) : Bool :=
  p.PageSize > 0

/-- `SortType` defines the sort direction (Go: `type SortType string`). -/
abbrev SortType := String

/-- `SortBy` represents the field to sort by (Go: `type SortBy string`). -/
abbrev SortByField := String

/-- `Sort` represents a sort instruction (Go struct `Sort`; renamed
`SortSpec` because `Sort` is a Lean keyword, and its `Type` field is
`Type_` for the same reason). -/
structure SortSpec where
  Field : SortByField := ""
  Type_ : SortType := ""
deriving DecidableEq, Repr

/-- `Sorts` represents a collection of sort instructions. -/
abbrev Sorts := List SortSpec

/-- `Criteria` defines the complete set of query criteria (Go struct
`Criteria`); the Go map `FiltersByModule` is modelled as an association
list, which no embedded operation inspects. -/
structure Criteria where
  SelectColumns : List String := []
  Joins : List String := []
  Filters : dafi.Filters := []
  FiltersByModule : List (String × dafi.Filters) := []
  Sorts : dafi.Sorts := []
  Pagination : dafi.Pagination := {}
deriving DecidableEq, Repr

/-- `New` creates a new empty `Criteria`. -/
def New : Criteria := {}

/-- `Where` creates a new `Criteria` with an initial filter. -/
def Where (field : String) (operator : FilterOperator) (value : FilterValue) : Criteria :=
  { Filters := FilterBy field operator value }

/-- `Criteria.AndGroup` forwards to `Filters.AndGroup` on the default sequence. -/
def Criteria.AndGroup (c : Criteria) (filters : List Filter) : Criteria :=
  { c with Filters := c.Filters.AndGroup filters }

/-- `Criteria.OrGroup` forwards to `Filters.OrGroup` on the default sequence. -/
def Criteria.OrGroup (c : Criteria) (filters : List Filter) : Criteria :=
  { c with Filters := c.Filters.OrGroup filters }

/-- `Criteria.Or` forwards to `Filters.Or` on the default sequence. -/
def Criteria.Or (c : Criteria) (field : String) (operator : FilterOperator)
    (value : FilterValue) : Criteria :=
  { c with Filters := c.Filters.Or field operator value }

/-- `Criteria.And` forwards to `Filters.And` on the default sequence. -/
def Criteria.And (c : Criteria) (field : String) (operator : FilterOperator)
    (value : FilterValue) : Criteria :=
  { c with Filters := c.Filters.And field operator value }

/-- `SortBy` adds a sort instruction. -/
def Criteria.SortBy (c : Criteria) (field : String) (sortType : SortType) : Criteria :=
  { c with Sorts := c.Sorts ++ [{ Field := field, Type_ := sortType }] }

/-- `Limit` sets the page size limit. -/
def Criteria.Limit (c : Criteria) (value : Nat) : Criteria :=
  { c with Pagination := { c.Pagination with PageSize := value } }

/-- `Page` sets the page number. -/
def Criteria.Page (c : Criteria) (value : Nat) : Criteria :=
  { c with Pagination := { c.Pagination with PageNumber := value } }

/-- `Select` sets the columns to be selected (wholesale replacement). -/
def Criteria.Select (c : Criteria) (columns : List String) : Criteria :=
  { c with SelectColumns := columns }

/-! ### Builder-produced sequences

`BuildStep` enumerates one call of the fluent builder API; `build`
folds a list of such calls over an initial sequence.  "A `Filters`
sequence built exclusively via the builders" is then `build init steps`
with `init` empty or produced by `FilterBy`. -/

/-- One call of the `Filters` builder API. -/
inductive BuildStep where
  | andF (field : String) (operator : FilterOperator) (value : FilterValue)
  | orF (field : String) (operator : FilterOperator) (value : FilterValue)
  | andGroup (filters : List Filter)
  | orGroup (filters : List Filter)
deriving DecidableEq, Repr

/-- Apply one builder call to a sequence. -/
def applyStep (f : Filters) : BuildStep → Filters
  | .andF field operator value => f.And field operator value
  | .orF field operator value => f.Or field operator value
  | .andGroup filters => f.AndGroup filters
  | .orGroup filters => f.OrGroup filters

/-- Fold a list of builder calls over an initial sequence. -/
def build (init : Filters) (steps : List BuildStep) : Filters :=
  steps.foldl applyStep init

/-- The caller-supplied `Filter` arguments of a builder call (empty for
the `And`/`Or` steps, whose new predicate is built from field, operator
and value alone). -/
def stepGroupArgs : BuildStep → List Filter
  | .andGroup filters => filters
  | .orGroup filters => filters
  | _ => []

/-- Sum of `GroupOpenQty` over a sequence. -/
def openQtySum (f : Filters) : Int :=
  (f.map (fun x => x.GroupOpenQty)).sum

/-- Sum of `GroupCloseQty` over a sequence. -/
def closeQtySum (f : Filters) : Int :=
  (f.map (fun x => x.GroupCloseQty)).sum

/-- Left-to-right scan of the group balance starting from `acc`:
`true` iff the running balance (opens minus closes) never goes negative
and is zero after the last element. -/
def balanceScan : Filters → Int → Bool
  | [], acc => acc == 0
  | x :: xs, acc =>
    decide (0 ≤ acc + x.GroupOpenQty - x.GroupCloseQty) &&
      balanceScan xs (acc + x.GroupOpenQty - x.GroupCloseQty)

/-- Erase the renderer-facing `OverridePreviousFilterChainingKey`
annotation of one token. -/
def eraseOverride (x : Filter) : Filter :=
  { x with OverridePreviousFilterChainingKey := "" }

/-- Erase the override annotations carried by a builder call's arguments. -/
def stepEraseOverride : BuildStep → BuildStep
  | .andF field operator value => .andF field operator value
  | .orF field operator value => .orF field operator value
  | .andGroup filters => .andGroup (filters.map eraseOverride)
  | .orGroup filters => .orGroup (filters.map eraseOverride)

/-! ### Go slice semantics (heap model)

Go's `Filters.And`/`Filters.Or` first execute
`f[len(f)-1].ChainingKey = …`, a write through the slice header into a
backing array that may be shared with other slice values, and then
`append`, which writes in place when spare capacity exists and
otherwise allocates a fresh backing array (doubling the capacity for
small slices).  The heap model makes the backing arrays explicit so the
aliasing behaviour of branching from a shared base is faithfully
reproduced. -/

/-- A heap of backing arrays; an array's identifier is its index, its
capacity is the length of the stored list. -/
abbrev GoHeap := List (List Filter)

/-- The backing array with identifier `i`. -/
def GoHeap.arrAt (h : GoHeap) (i : Nat) : List Filter := h.getD i []

/-- Replace the backing array with identifier `i`. -/
def GoHeap.writeAt (h : GoHeap) (i : Nat) (a : List Filter) : GoHeap := h.set i a

/-- Allocate a fresh backing array; returns the new heap and the
array's identifier. -/
def GoHeap.alloc (h : GoHeap) (a : List Filter) : GoHeap × Nat :=
  (h ++ [a], h.length)

/-- A Go slice header: backing-array identifier and length (the offset
is always zero in this package, so it is omitted). -/
structure GoSlice where
  arr : Nat
  len : Nat
deriving DecidableEq, Repr

/-- The capacity of a slice: the length of its backing array. -/
def GoSlice.cap (s : GoSlice) (h : GoHeap) : Nat := (h.arrAt s.arr).length

/-- Read element `i` of a slice out of the heap. -/
def GoSlice.get (s : GoSlice) (h : GoHeap) (i : Nat) : Filter :=
  (h.arrAt s.arr).getD i default

/-- Go's append capacity growth for small slices: at least the needed
length, and at least double the old capacity. -/
def growCap (old needed : Nat) : Nat := max needed (2 * old)

/-- Go's `append(s, x)`: write in place when `len < cap`, otherwise
copy the live elements into a freshly allocated, larger backing array
(the unused tail is zero-valued). -/
def goAppend (h : GoHeap) (s : GoSlice) (x : Filter) : GoHeap × GoSlice :=
  if s.len < s.cap h then
    (h.writeAt s.arr ((h.arrAt s.arr).set s.len x), { s with len := s.len + 1 })
  else
    let live := (h.arrAt s.arr).take s.len ++ [x]
    let backing := live ++ List.replicate (growCap (s.cap h) (s.len + 1) - (s.len + 1)) default
    let alloced := h.alloc backing
    (alloced.1, { arr := alloced.2, len := s.len + 1 })

/-- `FilterBy` under Go slice semantics: a slice literal of length one
allocates a backing array of capacity one. -/
def FilterByH (h : GoHeap) (name : String) (operator : FilterOperator)
    (value : FilterValue) : GoHeap × GoSlice :=
  let alloced := h.alloc [{ Field := name, Operator := operator, Value := value }]
  (alloced.1, { arr := alloced.2, len := 1 })

/-- Go `Filters.Or` under slice semantics: mutate the shared backing
array's last live element in place, then `append`. -/
def GoSlice.OrH (s : GoSlice) (h : GoHeap) (field : String) (operator : FilterOperator)
    (value : FilterValue) : GoHeap × GoSlice :=
  if s.len == 0 then
    let alloced := h.alloc [{ Field := field, Operator := operator, Value := value }]
    (alloced.1, { arr := alloced.2, len := 1 })
  else
    let a := h.arrAt s.arr
    let lastElem := a.getD (s.len - 1) default
    let h' := h.writeAt s.arr (a.set (s.len - 1) { lastElem with ChainingKey := Or })
    goAppend h' s { Field := field, Operator := operator, Value := value }

/-- Go `Filters.And` under slice semantics: mutate the shared backing
array's last live element in place, then `append`. -/
def GoSlice.AndH (s : GoSlice) (h : GoHeap) (field : String) (operator : FilterOperator)
    (value : FilterValue) : GoHeap × GoSlice :=
  if s.len == 0 then
    let alloced := h.alloc [{ Field := field, Operator := operator, Value := value }]
    (alloced.1, { arr := alloced.2, len := 1 })
  else
    let a := h.arrAt s.arr
    let lastElem := a.getD (s.len - 1) default
    let h' := h.writeAt s.arr (a.set (s.len - 1) { lastElem with ChainingKey := And })
    goAppend h' s { Field := field, Operator := operator, Value := value }

/-- The shared base of the branching scenario:
`base := FilterBy("x", Equal, 1)` run in the empty heap. -/
def branchBase : GoHeap × GoSlice := FilterByH [] "x" Equal (.int 1)

/-- First continuation built from the shared base:
`b1 := base.And("y", Equal, 2)`. -/
def branchB1 : GoHeap × GoSlice :=
  branchBase.2.AndH branchBase.1 "y" Equal (.int 2)

/-- Second continuation built from the same shared base, after `b1`:
`b2 := base.Or("z", Equal, 3)`. -/
def branchB2 : GoHeap × GoSlice :=
  branchBase.2.OrH branchB1.1 "z" Equal (.int 3)

/-! ## Theorems -/

/-- `setLastChainingKey` preserves length. -/
theorem setLastChainingKey_length :
    ∀ (f : Filters) (k : FilterChainingKey), (setLastChainingKey f k).length = f.length
  | [], _ => rfl
  | [_], _ => rfl
  | x :: y :: ys, k => by
    simp [setLastChainingKey, setLastChainingKey_length (y :: ys) k]

/-- `setLastChainingKey` writes `k` into the last element's `ChainingKey`. -/
theorem setLastChainingKey_lastCK :
    ∀ (x : Filter) (xs : List Filter) (k : FilterChainingKey),
      ((setLastChainingKey (x :: xs) k).getD xs.length default).ChainingKey = k
  | _, [], _ => rfl
  | x, y :: ys, k => by
    simp only [setLastChainingKey, List.length_cons, List.getD_cons_succ]
    exact setLastChainingKey_lastCK y ys k

/-- `setFirstGroupOpen` preserves length. -/
theorem setFirstGroupOpen_length (l : List Filter) :
    (setFirstGroupOpen l).length = l.length := by
  cases l <;> rfl

/-- `setLastGroupClose` preserves length. -/
theorem setLastGroupClose_length :
    ∀ l : List Filter, (setLastGroupClose l).length = l.length
  | [] => rfl
  | [_] => rfl
  | x :: y :: ys => by
    simp [setLastGroupClose, setLastGroupClose_length (y :: ys)]

/-- `markGroupBounds` preserves length. -/
theorem markGroupBounds_length (l : List Filter) :
    (markGroupBounds l).length = l.length := by
  rw [markGroupBounds, setLastGroupClose_length, setFirstGroupOpen_length]

/-- `setLastChainingKey` preserves the field names, in order. -/
theorem setLastChainingKey_map_field :
    ∀ (f : Filters) (k : FilterChainingKey),
      (setLastChainingKey f k).map (fun t => t.Field) = f.map (fun t => t.Field)
  | [], _ => rfl
  | [_], _ => rfl
  | x :: y :: ys, k => by
    simp [setLastChainingKey, setLastChainingKey_map_field (y :: ys) k]

/-- `setLastGroupClose` preserves the field names, in order. -/
theorem setLastGroupClose_map_field :
    ∀ l : List Filter, (setLastGroupClose l).map (fun t => t.Field) = l.map (fun t => t.Field)
  | [] => rfl
  | [_] => rfl
  | x :: y :: ys => by
    simp [setLastGroupClose, setLastGroupClose_map_field (y :: ys)]

/-- `markGroupBounds` preserves the field names, in order. -/
theorem markGroupBounds_map_field (l : List Filter) :
    (markGroupBounds l).map (fun t => t.Field) = l.map (fun t => t.Field) := by
  rw [markGroupBounds, setLastGroupClose_map_field]
  cases l <;> rfl

/-- The first element of a marked group block is group-open. -/
theorem markGroupBounds_head_open (y : Filter) (ys : List Filter) :
    ((markGroupBounds (y :: ys)).getD 0 default).IsGroupOpen = true := by
  cases ys <;> rfl

/-- The last element of a marked group block is group-close. -/
theorem setLastGroupClose_last :
    ∀ (y : Filter) (ys : List Filter),
      ((setLastGroupClose (y :: ys)).getD ys.length default).IsGroupClose = true
  | _, [] => rfl
  | y, z :: zs => by
    simp only [setLastGroupClose, List.length_cons, List.getD_cons_succ]
    exact setLastGroupClose_last z zs

/-- The last element of a marked group block is group-close. -/
theorem markGroupBounds_last_close (y : Filter) (ys : List Filter) :
    ((markGroupBounds (y :: ys)).getD ys.length default).IsGroupClose = true := by
  cases ys with
  | nil => rfl
  | cons z zs =>
    show ((setLastGroupClose (_ :: z :: zs)).getD (z :: zs).length default).IsGroupClose = true
    exact setLastGroupClose_last _ (z :: zs)

/-- Pointwise preservation through `setLastChainingKey`: a property
stable under chaining-key updates holds of every element of the result
when it holds of every element of the input. -/
theorem allP_setLastChainingKey (P : Filter → Prop)
    (hCK : ∀ t k, P t → P { t with ChainingKey := k }) :
    ∀ (f : Filters) (k : FilterChainingKey), (∀ t ∈ f, P t) →
      ∀ t ∈ setLastChainingKey f k, P t
  | [], _, _ => by intro t ht; simp [setLastChainingKey] at ht
  | [x], k, h => by
    intro t ht
    simp [setLastChainingKey] at ht
    subst ht
    exact hCK x k (h x (by simp))
  | x :: y :: ys, k, h => by
    intro t ht
    simp only [setLastChainingKey, List.mem_cons] at ht
    rcases ht with rfl | ht
    · exact h t (by simp)
    · exact allP_setLastChainingKey P hCK (y :: ys) k
        (fun u hu => h u (List.mem_cons_of_mem x hu)) t ht

/-- Pointwise preservation through `setFirstGroupOpen`. -/
theorem allP_setFirstGroupOpen (P : Filter → Prop)
    (hGO : ∀ t, P t → P { t with IsGroupOpen := true }) :
    ∀ (l : List Filter), (∀ t ∈ l, P t) → ∀ t ∈ setFirstGroupOpen l, P t
  | [], _ => by intro t ht; simp [setFirstGroupOpen] at ht
  | x :: xs, h => by
    intro t ht
    simp only [setFirstGroupOpen, List.mem_cons] at ht
    rcases ht with rfl | ht
    · exact hGO x (h x (by simp))
    · exact h t (List.mem_cons_of_mem x ht)

/-- Pointwise preservation through `setLastGroupClose`. -/
theorem allP_setLastGroupClose (P : Filter → Prop)
    (hGC : ∀ t, P t → P { t with IsGroupClose := true }) :
    ∀ (l : List Filter), (∀ t ∈ l, P t) → ∀ t ∈ setLastGroupClose l, P t
  | [], _ => by intro t ht; simp [setLastGroupClose] at ht
  | [x], h => by
    intro t ht
    simp [setLastGroupClose] at ht
    subst ht
    exact hGC x (h x (by simp))
  | x :: y :: ys, h => by
    intro t ht
    simp only [setLastGroupClose, List.mem_cons] at ht
    rcases ht with rfl | ht
    · exact h t (by simp)
    · exact allP_setLastGroupClose P hGC (y :: ys)
        (fun u hu => h u (List.mem_cons_of_mem x hu)) t ht

/-- Pointwise preservation through one builder call: any property stable
under the three field updates the builders perform, and holding of
freshly built plain predicates and of the call's supplied arguments, is
preserved. -/
theorem allP_applyStep (P : Filter → Prop)
    (hCK : ∀ t k, P t → P { t with ChainingKey := k })
    (hGO : ∀ t, P t → P { t with IsGroupOpen := true })
    (hGC : ∀ t, P t → P { t with IsGroupClose := true })
    (hNew : ∀ (n : String) (o : FilterOperator) (v : FilterValue),
      P { Field := n, Operator := o, Value := v })
    (f : Filters) (s : BuildStep)
    (hf : ∀ t ∈ f, P t) (hargs : ∀ t ∈ stepGroupArgs s, P t) :
    ∀ t ∈ applyStep f s, P t := by
  have hmark : ∀ (l : List Filter), (∀ t ∈ l, P t) → ∀ t ∈ markGroupBounds l, P t :=
    fun l hl => allP_setLastGroupClose P hGC _ (allP_setFirstGroupOpen P hGO l hl)
  cases s with
  | andF n o v =>
    intro t ht
    simp only [applyStep, Filters.And] at ht
    split at ht
    · simp at ht; subst ht; exact hNew n o v
    · rw [List.mem_append] at ht
      rcases ht with ht | ht
      · exact allP_setLastChainingKey P hCK f _ hf t ht
      · simp at ht; subst ht; exact hNew n o v
  | orF n o v =>
    intro t ht
    simp only [applyStep, Filters.Or] at ht
    split at ht
    · simp at ht; subst ht; exact hNew n o v
    · rw [List.mem_append] at ht
      rcases ht with ht | ht
      · exact allP_setLastChainingKey P hCK f _ hf t ht
      · simp at ht; subst ht; exact hNew n o v
  | andGroup gs =>
    intro t ht
    simp only [applyStep, Filters.AndGroup] at ht
    split at ht
    · exact hf t ht
    · rw [List.mem_append] at ht
      rcases ht with ht | ht
      · split at ht
        · exact allP_setLastChainingKey P hCK f _ hf t ht
        · exact hf t ht
      · exact hmark gs hargs t ht
  | orGroup gs =>
    intro t ht
    simp only [applyStep, Filters.OrGroup] at ht
    split at ht
    · exact hf t ht
    · rw [List.mem_append] at ht
      rcases ht with ht | ht
      · split at ht
        · exact allP_setLastChainingKey P hCK f _ hf t ht
        · exact hf t ht
      · exact hmark gs hargs t ht

/-- Pointwise preservation through an entire builder chain. -/
theorem allP_build (P : Filter → Prop)
    (hCK : ∀ t k, P t → P { t with ChainingKey := k })
    (hGO : ∀ t, P t → P { t with IsGroupOpen := true })
    (hGC : ∀ t, P t → P { t with IsGroupClose := true })
    (hNew : ∀ (n : String) (o : FilterOperator) (v : FilterValue),
      P { Field := n, Operator := o, Value := v }) :
    ∀ (steps : List BuildStep) (init : Filters),
      (∀ t ∈ init, P t) → (∀ s ∈ steps, ∀ t ∈ stepGroupArgs s, P t) →
      ∀ t ∈ build init steps, P t
  | [], _, hi, _ => by simpa [build] using hi
  | s :: rest, init, hi, hs => by
    have h1 : ∀ t ∈ applyStep init s, P t :=
      allP_applyStep P hCK hGO hGC hNew init s hi (hs s (by simp))
    have h2 := allP_build P hCK hGO hGC hNew rest (applyStep init s) h1
      (fun u hu => hs u (List.mem_cons_of_mem s hu))
    simpa [build] using h2

/-- A sequence of all-zero `GroupOpenQty` has zero open sum. -/
theorem openQtySum_eq_zero (f : Filters) (h : ∀ t ∈ f, t.GroupOpenQty = 0) :
    openQtySum f = 0 := by
  induction f with
  | nil => rfl
  | cons x xs ih =>
    have hx := h x (by simp)
    have hxs := ih (fun u hu => h u (by simp [hu]))
    simp only [openQtySum, List.map_cons, List.sum_cons] at hxs ⊢
    simp [hx, hxs]

/-- A sequence of all-zero `GroupCloseQty` has zero close sum. -/
theorem closeQtySum_eq_zero (f : Filters) (h : ∀ t ∈ f, t.GroupCloseQty = 0) :
    closeQtySum f = 0 := by
  induction f with
  | nil => rfl
  | cons x xs ih =>
    have hx := h x (by simp)
    have hxs := ih (fun u hu => h u (by simp [hu]))
    simp only [closeQtySum, List.map_cons, List.sum_cons] at hxs ⊢
    simp [hx, hxs]

/-- The balance scan of a sequence whose quantity counters are all zero
succeeds: the running balance stays at zero throughout. -/
theorem balanceScan_of_zero (f : Filters)
    (h : ∀ t ∈ f, t.GroupOpenQty = 0 ∧ t.GroupCloseQty = 0) :
    balanceScan f 0 = true := by
  induction f with
  | nil => rfl
  | cons x xs ih =>
    have hx := h x (by simp)
    have hxs := ih (fun u hu => h u (by simp [hu]))
    simp [balanceScan, hx.1, hx.2, hxs]

/-- C1: branching two continuations off the same `base := FilterBy("x", Equal, 1)`
is aliasing-safe under Go slice semantics: after `b1 := base.And("y", Equal, 2)`
and `b2 := base.Or("z", Equal, 3)`, read back from the final heap, `b1` is
exactly the AND-chained two-element sequence and `b2` the OR-chained one —
neither call's in-place mutation of the shared prefix's last element is
observable in the other branch's result. -/
theorem claim_C1_aliasing_safety :
    (branchB1.2.get branchB2.1 0).ChainingKey = And ∧
    (branchB2.2.get branchB2.1 0).ChainingKey = Or ∧
    branchB1.2.len = 2 ∧ branchB2.2.len = 2 ∧
    branchB1.2.get branchB2.1 0
      = { Field := "x", Operator := Equal, Value := .int 1, ChainingKey := And } ∧
    branchB1.2.get branchB2.1 1 = { Field := "y", Operator := Equal, Value := .int 2 } ∧
    branchB2.2.get branchB2.1 0
      = { Field := "x", Operator := Equal, Value := .int 1, ChainingKey := Or } ∧
    branchB2.2.get branchB2.1 1 = { Field := "z", Operator := Equal, Value := .int 3 } := by
  decide

/-- C5: on an empty receiver, `Or` and `And` degrade to `FilterBy`: the
result is the one-element sequence whose only set fields are the given
field, operator and value — the discarded connective is not stored
anywhere. -/
theorem claim_C5_empty_receiver_degradation (field : String) (operator : FilterOperator)
    (value : FilterValue) :
    Filters.Or [] field operator value = FilterBy field operator value ∧
    Filters.And [] field operator value = FilterBy field operator value ∧
    FilterBy field operator value =
      [{ Field := field, Operator := operator, Value := value }] :=
  ⟨rfl, rfl, rfl⟩

/-- C6: `AndGroup`/`OrGroup` with zero supplied predicates return the
receiver unchanged — in particular the last element's chaining key is
untouched. -/
theorem claim_C6_zero_group_noop (f : Filters) :
    f.AndGroup [] = f ∧ f.OrGroup [] = f :=
  ⟨rfl, rfl⟩

/-- C7: the zero-value `Pagination` reports `IsZero`, no page number and
no page size; in general `IsZero` holds iff both fields are zero,
`HasPageNumber` iff the page number is positive, and `HasPageSize` iff
the page size is positive. -/
theorem claim_C7_pagination_unset (p : Pagination) :
    Pagination.IsZero {} = true ∧
    Pagination.HasPageNumber {} = false ∧
    Pagination.HasPageSize {} = false ∧
    (p.IsZero = true ↔ p.PageNumber = 0 ∧ p.PageSize = 0) ∧
    (p.HasPageNumber = true ↔ p.PageNumber > 0) ∧
    (p.HasPageSize = true ↔ p.PageSize > 0) := by
  refine ⟨rfl, rfl, rfl, ?_, ?_, ?_⟩ <;>
    simp [Pagination.IsZero, Pagination.HasPageNumber, Pagination.HasPageSize]

/-- C3: chaining placement. `FilterBy(f1).And(f2)` has length 2, its
element 0 carries `ChainingKey = AND`, and its element 1 is the plain
new predicate (no group markers, no chaining key); in general both
`And` and `Or` on a non-empty receiver store the connective on the
previous last token and append a marker-free predicate. -/
theorem claim_C3_chaining_placement
    (n1 n2 : String) (o1 o2 : FilterOperator) (v1 v2 : FilterValue)
    (x : Filter) (xs : List Filter) :
    ((FilterBy n1 o1 v1).And n2 o2 v2).length = 2 ∧
    (((FilterBy n1 o1 v1).And n2 o2 v2).getD 0 default).ChainingKey = And ∧
    ((FilterBy n1 o1 v1).And n2 o2 v2).getD 1 default =
      { Field := n2, Operator := o2, Value := v2 } ∧
    (Filters.And (x :: xs) n2 o2 v2).getD (x :: xs).length default =
      { Field := n2, Operator := o2, Value := v2 } ∧
    ((Filters.And (x :: xs) n2 o2 v2).getD xs.length default).ChainingKey = And ∧
    (Filters.Or (x :: xs) n2 o2 v2).getD (x :: xs).length default =
      { Field := n2, Operator := o2, Value := v2 } ∧
    ((Filters.Or (x :: xs) n2 o2 v2).getD xs.length default).ChainingKey = Or := by
  have hAnd : Filters.And (x :: xs) n2 o2 v2 =
      setLastChainingKey (x :: xs) And ++ [{ Field := n2, Operator := o2, Value := v2 }] := by
    simp [Filters.And, Filters.IsZero]
  have hOr : Filters.Or (x :: xs) n2 o2 v2 =
      setLastChainingKey (x :: xs) Or ++ [{ Field := n2, Operator := o2, Value := v2 }] := by
    simp [Filters.Or, Filters.IsZero]
  refine ⟨rfl, rfl, rfl, ?_, ?_, ?_, ?_⟩
  · rw [hAnd, List.getD_append_right _ _ _ _ (by simp [setLastChainingKey_length])]
    simp [setLastChainingKey_length]
  · rw [hAnd, List.getD_append _ _ _ _ (by simp [setLastChainingKey_length])]
    exact setLastChainingKey_lastCK x xs And
  · rw [hOr, List.getD_append_right _ _ _ _ (by simp [setLastChainingKey_length])]
    simp [setLastChainingKey_length]
  · rw [hOr, List.getD_append _ _ _ _ (by simp [setLastChainingKey_length])]
    exact setLastChainingKey_lastCK x xs Or

/-- C4: group wrapping. The spec's concrete example yields the 3-element
sequence with AND on element 0, group-open on element 1 and group-close
on element 2; in general `AndGroup`/`OrGroup` on a non-empty receiver
with a non-empty block set the receiver's last chaining key, mark the
block's first predicate group-open and its last group-close, and append
the block in order. -/
theorem claim_C4_group_wrapping (x y : Filter) (xs ys : List Filter) :
    (((FilterBy "a" Equal (.int 1)).AndGroup
        [{ Field := "b", Operator := Equal, Value := .int 2 },
         { Field := "c", Operator := Equal, Value := .int 3 }]).length = 3 ∧
     (((FilterBy "a" Equal (.int 1)).AndGroup
        [{ Field := "b", Operator := Equal, Value := .int 2 },
         { Field := "c", Operator := Equal, Value := .int 3 }]).getD 0 default).ChainingKey
        = And ∧
     (((FilterBy "a" Equal (.int 1)).AndGroup
        [{ Field := "b", Operator := Equal, Value := .int 2 },
         { Field := "c", Operator := Equal, Value := .int 3 }]).getD 1 default).IsGroupOpen
        = true ∧
     (((FilterBy "a" Equal (.int 1)).AndGroup
        [{ Field := "b", Operator := Equal, Value := .int 2 },
         { Field := "c", Operator := Equal, Value := .int 3 }]).getD 2 default).IsGroupClose
        = true) ∧
    (Filters.AndGroup (x :: xs) (y :: ys)).length = (x :: xs).length + (y :: ys).length ∧
    ((Filters.AndGroup (x :: xs) (y :: ys)).getD xs.length default).ChainingKey = And ∧
    ((Filters.OrGroup (x :: xs) (y :: ys)).getD xs.length default).ChainingKey = Or ∧
    ((Filters.AndGroup (x :: xs) (y :: ys)).getD (xs.length + 1) default).IsGroupOpen = true ∧
    ((Filters.AndGroup (x :: xs) (y :: ys)).getD (xs.length + 1 + ys.length) default).IsGroupClose
      = true ∧
    (Filters.AndGroup (x :: xs) (y :: ys)).map (fun t => t.Field) =
      (x :: xs).map (fun t => t.Field) ++ (y :: ys).map (fun t => t.Field) ∧
    (Filters.OrGroup (x :: xs) (y :: ys)).length = (x :: xs).length + (y :: ys).length ∧
    ((Filters.OrGroup (x :: xs) (y :: ys)).getD (xs.length + 1) default).IsGroupOpen = true ∧
    ((Filters.OrGroup (x :: xs) (y :: ys)).getD (xs.length + 1 + ys.length) default).IsGroupClose
      = true ∧
    (Filters.OrGroup (x :: xs) (y :: ys)).map (fun t => t.Field) =
      (x :: xs).map (fun t => t.Field) ++ (y :: ys).map (fun t => t.Field) := by
  have hA : Filters.AndGroup (x :: xs) (y :: ys) =
      setLastChainingKey (x :: xs) And ++ markGroupBounds (y :: ys) := by
    simp [Filters.AndGroup]
  have hO : Filters.OrGroup (x :: xs) (y :: ys) =
      setLastChainingKey (x :: xs) Or ++ markGroupBounds (y :: ys) := by
    simp [Filters.OrGroup]
  refine ⟨⟨by decide, by decide, by decide, by decide⟩,
    ?_, ?_, ?_, ?_, ?_, ?_, ?_, ?_, ?_, ?_⟩
  · rw [hA]
    simp [setLastChainingKey_length, markGroupBounds_length, Nat.add_comm]
  · rw [hA, List.getD_append _ _ _ _ (by simp [setLastChainingKey_length])]
    exact setLastChainingKey_lastCK x xs And
  · rw [hO, List.getD_append _ _ _ _ (by simp [setLastChainingKey_length])]
    exact setLastChainingKey_lastCK x xs Or
  · rw [hA, List.getD_append_right _ _ _ _ (by simp [setLastChainingKey_length])]
    have : xs.length + 1 - (setLastChainingKey (x :: xs) And).length = 0 := by
      simp [setLastChainingKey_length]
    rw [this]
    exact markGroupBounds_head_open y ys
  · rw [hA, List.getD_append_right _ _ _ _ (by simp [setLastChainingKey_length])]
    have : xs.length + 1 + ys.length - (setLastChainingKey (x :: xs) And).length
        = ys.length := by
      simp [setLastChainingKey_length]
    rw [this]
    exact markGroupBounds_last_close y ys
  · rw [hA, List.map_append, setLastChainingKey_map_field, markGroupBounds_map_field]
  · rw [hO]
    simp [setLastChainingKey_length, markGroupBounds_length, Nat.add_comm]
  · rw [hO, List.getD_append_right _ _ _ _ (by simp [setLastChainingKey_length])]
    have : xs.length + 1 - (setLastChainingKey (x :: xs) Or).length = 0 := by
      simp [setLastChainingKey_length]
    rw [this]
    exact markGroupBounds_head_open y ys
  · rw [hO, List.getD_append_right _ _ _ _ (by simp [setLastChainingKey_length])]
    have : xs.length + 1 + ys.length - (setLastChainingKey (x :: xs) Or).length
        = ys.length := by
      simp [setLastChainingKey_length]
    rw [this]
    exact markGroupBounds_last_close y ys
  · rw [hO, List.map_append, setLastChainingKey_map_field, markGroupBounds_map_field]

/-- C8: `Select` replaces the selected-column list wholesale: the last
call wins, both in the spec's concrete example and for every criteria
value and pair of column lists. -/
theorem claim_C8_select_replaces (c : Criteria) (xs ys : List String) :
    ((New.Select ["a", "b"]).Select ["c"]).SelectColumns = ["c"] ∧
    ((c.Select xs).Select ys).SelectColumns = ys :=
  ⟨rfl, rfl⟩

/-- C2: group balance. For any sequence built exclusively through the
builder API — starting from the empty sequence or `FilterBy`, with
every supplied group predicate carrying the zero quantity counters the
builders themselves produce — the open-quantity sum equals the
close-quantity sum, and the left-to-right running balance never goes
negative and ends at zero. -/
theorem claim_C2_group_balance (n : String) (o : FilterOperator) (v : FilterValue)
    (steps : List BuildStep)
    (hsteps : ∀ s ∈ steps, ∀ t ∈ stepGroupArgs s,
      t.GroupOpenQty = 0 ∧ t.GroupCloseQty = 0) :
    (openQtySum (build [] steps) = closeQtySum (build [] steps) ∧
      balanceScan (build [] steps) 0 = true) ∧
    (openQtySum (build (FilterBy n o v) steps) = closeQtySum (build (FilterBy n o v) steps) ∧
      balanceScan (build (FilterBy n o v) steps) 0 = true) := by
  have key : ∀ (init : Filters), (∀ t ∈ init, t.GroupOpenQty = 0 ∧ t.GroupCloseQty = 0) →
      openQtySum (build init steps) = closeQtySum (build init steps) ∧
      balanceScan (build init steps) 0 = true := by
    intro init hi
    have hall := allP_build (fun t => t.GroupOpenQty = 0 ∧ t.GroupCloseQty = 0)
      (fun t _ ht => ht) (fun t ht => ht) (fun t ht => ht) (fun _ _ _ => ⟨rfl, rfl⟩)
      steps init hi hsteps
    refine ⟨?_, balanceScan_of_zero _ hall⟩
    rw [openQtySum_eq_zero _ (fun t ht => (hall t ht).1),
      closeQtySum_eq_zero _ (fun t ht => (hall t ht).2)]
  refine ⟨key [] (by simp), key (FilterBy n o v) ?_⟩
  intro t ht
  simp only [FilterBy, List.mem_singleton] at ht
  subst ht
  exact ⟨rfl, rfl⟩

/-- C2 witness: the balance property evaluated on a concrete chain that
mixes `And`, `Or` and a two-predicate `OrGroup`. -/
theorem claim_C2_group_balance_witness :
    openQtySum (build (FilterBy "a" Equal (.int 1))
        [.andF "b" Equal (.int 2),
         .orGroup [{ Field := "c", Operator := Equal, Value := .int 3 },
                   { Field := "d", Operator := Equal, Value := .int 4 }]])
      = closeQtySum (build (FilterBy "a" Equal (.int 1))
        [.andF "b" Equal (.int 2),
         .orGroup [{ Field := "c", Operator := Equal, Value := .int 3 },
                   { Field := "d", Operator := Equal, Value := .int 4 }]]) ∧
    balanceScan (build (FilterBy "a" Equal (.int 1))
        [.andF "b" Equal (.int 2),
         .orGroup [{ Field := "c", Operator := Equal, Value := .int 3 },
                   { Field := "d", Operator := Equal, Value := .int 4 }]]) 0 = true :=
  (claim_C2_group_balance "a" Equal (.int 1)
    [.andF "b" Equal (.int 2),
     .orGroup [{ Field := "c", Operator := Equal, Value := .int 3 },
               { Field := "d", Operator := Equal, Value := .int 4 }]]
    (by decide)).2

/-- C9: no builder operation writes the quantity counters. Starting from
the empty sequence or `FilterBy`, if every supplied group predicate has
zero `GroupOpenQty`/`GroupCloseQty`, then every element of the built
sequence still has both counters zero — group boundaries live solely in
the boolean flags. -/
theorem claim_C9_qty_counters_never_written (n : String) (o : FilterOperator)
    (v : FilterValue) (steps : List BuildStep)
    (hsteps : ∀ s ∈ steps, ∀ t ∈ stepGroupArgs s,
      t.GroupOpenQty = 0 ∧ t.GroupCloseQty = 0) :
    ((build [] steps).all fun t => t.GroupOpenQty == 0 && t.GroupCloseQty == 0) = true ∧
    ((build (FilterBy n o v) steps).all
      fun t => t.GroupOpenQty == 0 && t.GroupCloseQty == 0) = true := by
  have key : ∀ (init : Filters), (∀ t ∈ init, t.GroupOpenQty = 0 ∧ t.GroupCloseQty = 0) →
      ((build init steps).all fun t => t.GroupOpenQty == 0 && t.GroupCloseQty == 0)
        = true := by
    intro init hi
    have hall := allP_build (fun t => t.GroupOpenQty = 0 ∧ t.GroupCloseQty = 0)
      (fun t _ ht => ht) (fun t ht => ht) (fun t ht => ht) (fun _ _ _ => ⟨rfl, rfl⟩)
      steps init hi hsteps
    rw [List.all_eq_true]
    intro t ht
    simp [(hall t ht).1, (hall t ht).2]
  refine ⟨key [] (by simp), key (FilterBy n o v) ?_⟩
  intro t ht
  simp only [FilterBy, List.mem_singleton] at ht
  subst ht
  exact ⟨rfl, rfl⟩

/-- Erasing the override annotation commutes with `setLastChainingKey`:
the chaining-key update neither reads nor depends on the annotation. -/
theorem map_erase_setLastChainingKey :
    ∀ (f : Filters) (k : FilterChainingKey),
      (setLastChainingKey f k).map eraseOverride
        = setLastChainingKey (f.map eraseOverride) k
  | [], _ => rfl
  | [_], _ => rfl
  | x :: y :: ys, k => by
    simp only [setLastChainingKey, List.map_cons]
    rw [map_erase_setLastChainingKey (y :: ys) k]
    rfl

/-- Erasing the override annotation commutes with `setFirstGroupOpen`. -/
theorem map_erase_setFirstGroupOpen (l : List Filter) :
    (setFirstGroupOpen l).map eraseOverride = setFirstGroupOpen (l.map eraseOverride) := by
  cases l <;> rfl

/-- Erasing the override annotation commutes with `setLastGroupClose`. -/
theorem map_erase_setLastGroupClose :
    ∀ l : List Filter,
      (setLastGroupClose l).map eraseOverride = setLastGroupClose (l.map eraseOverride)
  | [] => rfl
  | [_] => rfl
  | x :: y :: ys => by
    simp only [setLastGroupClose, List.map_cons]
    rw [map_erase_setLastGroupClose (y :: ys)]
    rfl

/-- Erasing the override annotation commutes with `markGroupBounds`. -/
theorem map_erase_markGroupBounds (l : List Filter) :
    (markGroupBounds l).map eraseOverride = markGroupBounds (l.map eraseOverride) := by
  rw [markGroupBounds, markGroupBounds, map_erase_setLastGroupClose,
    map_erase_setFirstGroupOpen]

/-- Erasing the override annotation commutes with one builder call: no
builder operation reads the annotation. -/
theorem map_erase_applyStep (f : Filters) (s : BuildStep) :
    (applyStep f s).map eraseOverride
      = applyStep (f.map eraseOverride) (stepEraseOverride s) := by
  cases s with
  | andF n o v =>
    rcases f with _ | ⟨x, xs⟩
    · rfl
    · simp only [applyStep, stepEraseOverride, Filters.And, Filters.IsZero]
      simp [map_erase_setLastChainingKey, eraseOverride]
  | orF n o v =>
    rcases f with _ | ⟨x, xs⟩
    · rfl
    · simp only [applyStep, stepEraseOverride, Filters.Or, Filters.IsZero]
      simp [map_erase_setLastChainingKey, eraseOverride]
  | andGroup gs =>
    rcases gs with _ | ⟨y, ys⟩
    · rfl
    · rcases f with _ | ⟨x, xs⟩
      · simp only [applyStep, stepEraseOverride, Filters.AndGroup]
        simp [map_erase_markGroupBounds]
      · simp only [applyStep, stepEraseOverride, Filters.AndGroup]
        simp [map_erase_markGroupBounds, map_erase_setLastChainingKey]
  | orGroup gs =>
    rcases gs with _ | ⟨y, ys⟩
    · rfl
    · rcases f with _ | ⟨x, xs⟩
      · simp only [applyStep, stepEraseOverride, Filters.OrGroup]
        simp [map_erase_markGroupBounds]
      · simp only [applyStep, stepEraseOverride, Filters.OrGroup]
        simp [map_erase_markGroupBounds, map_erase_setLastChainingKey]

/-- Erasing the override annotation commutes with an entire builder chain. -/
theorem map_erase_build :
    ∀ (steps : List BuildStep) (init : Filters),
      (build init steps).map eraseOverride
        = build (init.map eraseOverride) (steps.map stepEraseOverride)
  | [], _ => rfl
  | s :: rest, init => by
    have h := map_erase_build rest (applyStep init s)
    simp only [build, List.foldl_cons, List.map_cons] at h ⊢
    rw [h, map_erase_applyStep]

/-- C10: the override annotation is inert during construction. Every
sequence built through the builder API from arguments with the
annotation unset has it unset on every element; and erasing the
annotation commutes with building, so no builder operation reads an
element's annotation to rewrite a previous token's chaining key — it is
a renderer-facing annotation only. -/
theorem claim_C10_override_annotation_inert (n : String) (o : FilterOperator)
    (v : FilterValue) (init : Filters) (steps : List BuildStep)
    (hsteps : ∀ s ∈ steps, ∀ t ∈ stepGroupArgs s,
      t.OverridePreviousFilterChainingKey = "") :
    ((build [] steps).all
      fun t => t.OverridePreviousFilterChainingKey == "") = true ∧
    ((build (FilterBy n o v) steps).all
      fun t => t.OverridePreviousFilterChainingKey == "") = true ∧
    (build init steps).map eraseOverride
      = build (init.map eraseOverride) (steps.map stepEraseOverride) := by
  have key : ∀ (start : Filters), (∀ t ∈ start, t.OverridePreviousFilterChainingKey = "") →
      ((build start steps).all
        fun t => t.OverridePreviousFilterChainingKey == "") = true := by
    intro start hi
    have hall := allP_build (fun t => t.OverridePreviousFilterChainingKey = "")
      (fun t _ ht => ht) (fun t ht => ht) (fun t ht => ht) (fun _ _ _ => rfl)
      steps start hi hsteps
    rw [List.all_eq_true]
    intro t ht
    simp [hall t ht]
  refine ⟨key [] (by simp), key (FilterBy n o v) ?_, map_erase_build steps init⟩
  intro t ht
  simp only [FilterBy, List.mem_singleton] at ht
  subst ht
  rfl

/-- C10 witness: the annotation stays unset over a concrete chain with
an `OrGroup` block, evaluated from a `FilterBy` start. -/
theorem claim_C10_override_annotation_inert_witness :
    ((build (FilterBy "u" Equal (.int 1))
        [.orGroup [{ Field := "v", Operator := Equal, Value := .int 2 },
                   { Field := "w", Operator := Equal, Value := .int 3 }],
         .andF "t" Equal (.int 4)]).all
      fun t => t.OverridePreviousFilterChainingKey == "") = true :=
  (claim_C10_override_annotation_inert "u" Equal (.int 1) []
    [.orGroup [{ Field := "v", Operator := Equal, Value := .int 2 },
               { Field := "w", Operator := Equal, Value := .int 3 }],
     .andF "t" Equal (.int 4)]
    (by decide)).2.1

/-- C9 witness: the all-counters-zero property evaluated on a concrete
chain with an `AndGroup` block and a trailing `Or`. -/
theorem claim_C9_qty_counters_never_written_witness :
    ((build (FilterBy "p" Equal (.int 1))
        [.andGroup [{ Field := "q", Operator := Equal, Value := .int 2 },
                    { Field := "r", Operator := Equal, Value := .int 3 }],
         .orF "s" Equal (.int 4)]).all
      fun t => t.GroupOpenQty == 0 && t.GroupCloseQty == 0) = true :=
  (claim_C9_qty_counters_never_written "p" Equal (.int 1)
    [.andGroup [{ Field := "q", Operator := Equal, Value := .int 2 },
                { Field := "r", Operator := Equal, Value := .int 3 }],
     .orF "s" Equal (.int 4)]
    (by decide)).2

end dafi
